import Mathlib

/-!
Verification development for the BM25 retrieval core of the Yunshu repository
(`src/Yunshu_System/Core_Layer/Agent_Core/memory_engine.py`).

Shallow embedding conventions:
* Text is `List Char`; Python strings holding text content are embedded as
  character lists, names/paths as `String`.
* Python `float` arithmetic is idealised as exact arithmetic: the tunable
  parameters and `avgdl` are rationals, IDF values and scores are reals
  (`Real.log` embeds `math.log`).
* Python `dict` / `collections.Counter` objects are embedded as association
  lists in insertion order; `Counter` lookup of a missing key is `0`
  (`(List.lookup t c).getD 0`), `dict` membership is `(List.lookup ..).isSome`.
* The Unicode-aware word class of the normalisation regex is environment
  table data; the tokenizer is therefore defined generically over a keep-test
  (`tokenizeWith`), its structure theorems quantify over that test, and
  `keepChar` is the concrete ASCII-plus-CJK fragment instantiating fixtures.
* Python `list[:k]` slicing (including negative `k`) is embedded by `pyTake`.
* `list.sort(key=.., reverse=True)` (a stable descending sort) is embedded by
  the stable insertion sort `sortByScoreDesc`.
* The filesystem seen by `MemoryManager` is embedded as an explicit `FS`
  record: whether the root exists, the list of collection subdirectories,
  the `.txt` documents successfully read under each collection (per-file read
  errors are skipped by the source, so `docsOf` holds the surviving reads),
  and the state of each collection's sidecar file (absent, present-but-corrupt,
  or present with parseable content).  Writing a sidecar is modelled as always
  succeeding.  Raised Python exceptions are embedded as `Except.error`.
-/

set_option maxRecDepth 8192

/-- The token type: a 2-character bigram (or a short degenerate string). -/
abbrev Token := List Char

/-- The normalisation step of the tokenizer for an arbitrary keep-test `w`:
strip every character the test rejects.  The keep-test of the source regex
keeps exactly the characters that are Unicode word characters (the
Unicode-aware word class, which includes non-ASCII letters and digits) or
that lie in the CJK Unified Ideographs block U+4E00 to U+9FFF. -/
def normalizeWith (w : Char → Bool) (text : List Char) : List Char :=
  text.filter w

/-- Embeds the tokenizer method of SimpleBM25 for an arbitrary keep-test:
normalise; if fewer than 2 characters remain, return the one-element list
holding the remainder; otherwise return the overlapping 2-character bigrams
of the normalised string in left-to-right order.  The full extension of the
Unicode word class used by the source is environment table data outside the
embedding, so the tokenizer-structure theorems below are proved for every
keep-test; they therefore cover the keep-test the source actually uses. -/
def tokenizeWith (w : Char → Bool) (text : List Char) : List Token :=
  let t := normalizeWith w text
  if t.length < 2 then [t]
  else (List.range (t.length - 1)).map (fun i => (t.drop i).take 2)

/-- A decidable fragment of the keep-class of the source, used to instantiate
concrete corpora: ASCII alphanumerics (`Char.isAlphanum` covers exactly the
ASCII range), underscore, and the CJK block U+4E00 to U+9FFF.  The Unicode
word class of the source also keeps further non-ASCII letters and digits, so
this fragment agrees with the source class only on texts made of ASCII and
CJK-block characters; every concrete fixture and witness below uses only such
characters. -/
def keepChar (c : Char) : Bool :=
  c.isAlphanum || c == '_' || (0x4e00 ≤ c.toNat && c.toNat ≤ 0x9fff)

/-- The normalisation instance over the concrete fragment `keepChar`. -/
def normalizeText (text : List Char) : List Char :=
  normalizeWith keepChar text

/-- The tokenizer instance over the concrete fragment `keepChar`, used by the
concrete corpora of this development. -/
def tokenize (text : List Char) : List Token :=
  tokenizeWith keepChar text

/-- A document as built by the manager: the content string plus the metadata
dict flattened into its two fields, a relative path and a file name. -/
structure Doc where
  content : List Char
  path : String
  filename : String
deriving DecidableEq

/-- Default document, used only to totalise list indexing (`documents[i]`);
never reached on consistently built indices. -/
def defaultDoc : Doc := ⟨[], "", ""⟩

/-- Helper for `dedupFirst`: keep each element not seen before, in order. -/
def dedupAux (seen : List Token) : List Token → List Token
  | [] => []
  | t :: ts => if seen.contains t then dedupAux seen ts else t :: dedupAux (t :: seen) ts

/-- First-occurrence-order deduplication: the key order of a Python
`Counter`/`dict` built by inserting the listed elements in order. -/
def dedupFirst (l : List Token) : List Token := dedupAux [] l

/-- Embeds a Counter built over a token list as an association list: keys in first-occurrence
order, each mapped to its multiplicity in `ts`. -/
def counterOf (ts : List Token) : List (Token × ℕ) :=
  (dedupFirst ts).map (fun t => (t, ts.count t))

/-- Document frequency of a term: the number of per-document counters whose
key set contains the term (the `df` Counter of `SimpleBM25.fit`). -/
def docFreq (tcs : List (List (Token × ℕ))) (t : Token) : ℕ :=
  tcs.countP (fun tc => (List.lookup t tc).isSome)

/-- Embeds the IDF computation of fit, namely
log((doc_count - freq + 0.5) / (freq + 0.5) + 1), in exact real
arithmetic. -/
noncomputable def idfFormula (N df : ℕ) : ℝ :=
  Real.log (((N : ℝ) - (df : ℝ) + 1 / 2) / ((df : ℝ) + 1 / 2) + 1)

/-- Python slicing with an int bound k: for `0 ≤ k` the first `k`
elements, for `k < 0` everything but the last `-k` elements (clamped at the
empty list). -/
def pyTake {α : Type} (l : List α) (k : ℤ) : List α :=
  if 0 ≤ k then l.take k.toNat else l.take (l.length - (-k).toNat)

open Classical in
/-- Insert into a descending-sorted list, after any element with an equal or
larger score: the insertion step of a stable descending sort. -/
noncomputable def insertScored {α : Type} (sc : α → ℝ) (x : α) : List α → List α
  | [] => [x]
  | y :: ys => if sc y ≤ sc x then x :: y :: ys else y :: insertScored sc x ys

/-- Stable sort by descending score, embedding the in-place stable sort with
reversed score key used by search and search_all. -/
noncomputable def sortByScoreDesc {α : Type} (sc : α → ℝ) (l : List α) : List α :=
  l.foldr (insertScored sc) []

/-- The state of a `SimpleBM25` instance. -/
structure SimpleBM25 where
  k1 : ℚ
  b : ℚ
  avgdl : ℚ
  doc_count : ℕ
  idf : List (Token × ℝ)
  doc_lengths : List ℕ
  documents : List Doc
  doc_term_counts : List (List (Token × ℕ))

/-- Embeds the SimpleBM25 constructor with its default parameters k1 = 1.5
and b = 0.75. -/
def SimpleBM25.init : SimpleBM25 :=
  { k1 := 3 / 2, b := 3 / 4, avgdl := 0, doc_count := 0, idf := [],
    doc_lengths := [], documents := [], doc_term_counts := [] }

/-- Embeds the fit method: tokenize every document, record lengths, compute
avgdl, document frequencies, the IDF table, and per-document term counters.
The k1 and b of the receiver are kept. -/
noncomputable def SimpleBM25.fit (x : SimpleBM25) (documents : List Doc) : SimpleBM25 :=
  let doc_term_counts := documents.map (fun d => counterOf (tokenize d.content))
  let doc_lengths := documents.map (fun d => (tokenize d.content).length)
  let doc_count := documents.length
  let total_length := doc_lengths.sum
  let avgdl : ℚ := if 0 < doc_count then (total_length : ℚ) / (doc_count : ℚ) else 0
  let terms := dedupFirst ((doc_term_counts.map (fun tc => tc.map Prod.fst)).flatten)
  { x with
    avgdl := avgdl
    doc_count := doc_count
    idf := terms.map (fun t => (t, idfFormula doc_count (docFreq doc_term_counts t)))
    doc_lengths := doc_lengths
    documents := documents
    doc_term_counts := doc_term_counts }

/-- A fresh SimpleBM25 followed by fit, exactly how the manager builds every
index. -/
noncomputable def fitDefault (documents : List Doc) : SimpleBM25 :=
  SimpleBM25.init.fit documents

open Classical in
/-- The body of the inner loop of `SimpleBM25.search`: skip a term absent
from the IDF table (`continue`), otherwise add the BM25 summand built from
the term's IDF value, its frequency in document `i`, and the document's
length normalisation. -/
noncomputable def scoreStep (X : SimpleBM25) (i : ℕ) (score : ℝ) (term : Token) : ℝ :=
  match List.lookup term X.idf with
  | none => score
  | some idfv =>
    let freq : ℕ := (List.lookup term (X.doc_term_counts.getD i [])).getD 0
    score + idfv * (freq : ℝ) * ((X.k1 : ℝ) + 1) /
      ((freq : ℝ) + (X.k1 : ℝ) *
        (1 - (X.b : ℝ) + (X.b : ℝ) * ((X.doc_lengths.getD i 0 : ℕ) : ℝ) / ((X.avgdl : ℚ) : ℝ)))

/-- The inner loop of `SimpleBM25.search`: the accumulated BM25 score of
document `i` over the query terms. -/
noncomputable def SimpleBM25.docScore (X : SimpleBM25) (query_terms : List Token)
    (i : ℕ) : ℝ :=
  query_terms.foldl (scoreStep X i) 0

open Classical in
/-- The candidate-accumulation loop of `SimpleBM25.search`: for each document
index in order, append `(score, document)` when the score is strictly
positive. -/
noncomputable def SimpleBM25.scoresList (X : SimpleBM25) (query_terms : List Token) :
    List (ℝ × Doc) :=
  (List.range X.doc_count).foldl (fun scores i =>
    let score := X.docScore query_terms i
    if 0 < score then scores ++ [(score, X.documents.getD i defaultDoc)] else scores) []

/-- Embeds the search method: tokenize the query, accumulate the
positive-scoring `(score, document)` pairs, sort by descending score, and
slice the first top_k. -/
noncomputable def SimpleBM25.search (X : SimpleBM25) (query : List Char) (top_k : ℤ) :
    List (ℝ × Doc) :=
  pyTake (sortByScoreDesc Prod.fst (X.scoresList (tokenize query))) top_k

/-- The JSON object written by `SimpleBM25.save`: all eight fields, with each
`Counter` converted to a plain `dict` (the identity on our association-list
embedding; Python's JSON layer round-trips floats, ints and strings
exactly). -/
structure SavedIndex where
  k1 : ℚ
  b : ℚ
  avgdl : ℚ
  doc_count : ℕ
  idf : List (Token × ℝ)
  doc_lengths : List ℕ
  documents : List Doc
  doc_term_counts : List (List (Token × ℕ))

/-- Embeds the save method: serialise the complete state. -/
noncomputable def SimpleBM25.save (X : SimpleBM25) : SavedIndex :=
  { k1 := X.k1, b := X.b, avgdl := X.avgdl, doc_count := X.doc_count,
    idf := X.idf, doc_lengths := X.doc_lengths, documents := X.documents,
    doc_term_counts := X.doc_term_counts }

/-- Embeds the load method on a receiver y: every field of y is overwritten
from the parsed file, each saved dict turned back into a Counter, so the
prior state of the receiver is irrelevant. -/
noncomputable def SimpleBM25.loadInto (_y : SimpleBM25) (d : SavedIndex) : SimpleBM25 :=
  { k1 := d.k1, b := d.b, avgdl := d.avgdl, doc_count := d.doc_count,
    idf := d.idf, doc_lengths := d.doc_lengths, documents := d.documents,
    doc_term_counts := d.doc_term_counts }

/-- A query result record as formatted by `MemoryManager.query`. -/
structure QueryResult where
  score : ℝ
  novel : String
  filename : String
  path : String
  preview : List Char

/-- The result-formatting loop of `MemoryManager.query`: each `(score, doc)`
pair becomes a record with the collection name and a preview
holding the first 200 characters of the content plus an ellipsis marker. -/
def formatResults (name : String) (rs : List (ℝ × Doc)) : List QueryResult :=
  rs.map (fun p =>
    { score := p.1, novel := name, filename := p.2.filename, path := p.2.path,
      preview := p.2.content.take 200 ++ ("...".data) })

/-- The on-disk state of one collection's sidecar file
(`<root>/<name>/.yunshu_memory.json`). -/
inductive SidecarFile where
  | absent
  | corrupt
  | good (d : SavedIndex)

/-- The filesystem as observed by `MemoryManager`: whether the configured
root exists, its immediate subdirectories in iteration order, the `.txt`
documents successfully read under each collection directory (in walk order),
and each collection's sidecar file. -/
structure FS where
  rootExists : Bool
  dirs : List String
  docsOf : String → List Doc
  sidecar : String → SidecarFile

/-- Embeds the existence test for a collection directory in this model: the
root exists and lists the name among its subdirectories. -/
def FS.dirExists (fs : FS) (name : String) : Bool :=
  fs.rootExists && fs.dirs.contains name

/-- Overwrite a collection's sidecar file with freshly saved index data
(the save call of build, modelled as always succeeding). -/
def FS.writeSidecar (fs : FS) (name : String) (d : SavedIndex) : FS :=
  { fs with sidecar := fun n => if n = name then SidecarFile.good d else fs.sidecar n }

/-- The engine cache of the manager, a Python dict embedded as an
association list in insertion order. -/
structure Mgr where
  engines : List (String × SimpleBM25)

/-- Embeds a keyed assignment into the engines dict: replace in place when
the key is present, append otherwise. -/
def insertAssoc (l : List (String × SimpleBM25)) (name : String) (v : SimpleBM25) :
    List (String × SimpleBM25) :=
  if l.any (fun p => p.1 == name) then
    l.map (fun p => if p.1 == name then (name, v) else p)
  else l ++ [(name, v)]

/-- Embeds the preload method of MemoryManager: if the root exists, walk its
subdirectories; for each one whose sidecar file exists, try to load it into
the cache, catching (and merely logging) any load failure. -/
noncomputable def preload (fs : FS) (m : Mgr) : Mgr :=
  if fs.rootExists then
    ⟨fs.dirs.foldl (fun es name =>
      match fs.sidecar name with
      | SidecarFile.good d => insertAssoc es name (SimpleBM25.init.loadInto d)
      | _ => es) m.engines⟩
  else m

/-- Embeds the build method of MemoryManager: fail with a reason when the
collection directory is missing or holds no `.txt` documents; otherwise fit a
fresh index, persist it to the sidecar, install it in the cache, and report
success.  Returns the (ok, message) pair together with the updated
filesystem and manager states. -/
noncomputable def build_novel_index (fs : FS) (m : Mgr) (name : String) :
    (Bool × String) × FS × Mgr :=
  if fs.dirExists name then
    let documents := fs.docsOf name
    if documents.isEmpty then ((false, "No documents found"), fs, m)
    else
      let engine := SimpleBM25.init.fit documents
      ((true, "Indexed " ++ toString documents.length ++ " chapters."),
        fs.writeSidecar name engine.save,
        ⟨insertAssoc m.engines name engine⟩)
  else ((false, "Novel directory not found"), fs, m)

/-- Embeds the query method of MemoryManager: serve from the cache when
present; otherwise, when the sidecar file exists, parse it (a corrupt file
raises, embedded as `Except.error ()`) and cache the loaded engine; when no
sidecar exists, build on demand, returning `[]` when the build fails.  On the
non-failure paths, search the engine and format the results. -/
noncomputable def mmQuery (fs : FS) (m : Mgr) (name : String) (query_text : List Char)
    (top_k : ℤ) : Except Unit (List QueryResult × FS × Mgr) :=
  match List.lookup name m.engines with
  | some engine => Except.ok (formatResults name (engine.search query_text top_k), fs, m)
  | none =>
    match fs.sidecar name with
    | SidecarFile.good d =>
      let engine := SimpleBM25.init.loadInto d
      Except.ok (formatResults name (engine.search query_text top_k), fs,
        ⟨insertAssoc m.engines name engine⟩)
    | SidecarFile.corrupt => Except.error ()
    | SidecarFile.absent =>
      let r := build_novel_index fs m name
      if r.1.1 then
        match List.lookup name r.2.2.engines with
        | some engine =>
          Except.ok (formatResults name (engine.search query_text top_k), r.2.1, r.2.2)
        | none => Except.error ()
      else Except.ok ([], fs, m)

/-- The discovery phase at the head of search_all: re-run preload, and only
when the cache is still empty afterwards (and
the root exists), run `build_novel_index` over every subdirectory. -/
noncomputable def afterDiscovery (fs : FS) (m : Mgr) : FS × Mgr :=
  let m1 := preload fs m
  if m1.engines.isEmpty then
    if fs.rootExists then
      fs.dirs.foldl (fun s name =>
        let r := build_novel_index s.1 s.2 name
        (r.2.1, r.2.2)) (fs, m1)
    else (fs, m1)
  else (fs, m1)

/-- The per-collection query loop of search_all: query each cached
collection name in order with the shared top_k, extending the accumulated
result list; an exception raised by the query call propagates. -/
noncomputable def queryLoop (query_text : List Char) (top_k : ℤ) :
    List String → List QueryResult → FS → Mgr →
      Except Unit (List QueryResult × FS × Mgr)
  | [], acc, fs, m => Except.ok (acc, fs, m)
  | name :: rest, acc, fs, m =>
    match mmQuery fs m name query_text top_k with
    | Except.error e => Except.error e
    | Except.ok (rs, fs', m') => queryLoop query_text top_k rest (acc ++ rs) fs' m'

/-- Embeds the search_all method of MemoryManager: discovery (plus builds when
the cache is empty), the per-collection query loop over the cached names,
then a global descending sort by score and the first top_k of the result. -/
noncomputable def search_all (fs : FS) (m : Mgr) (query_text : List Char) (top_k : ℤ) :
    Except Unit (List QueryResult × FS × Mgr) :=
  let s := afterDiscovery fs m
  match queryLoop query_text top_k (s.2.engines.map Prod.fst) [] s.1 s.2 with
  | Except.error e => Except.error e
  | Except.ok (all, fs3, m3) =>
    Except.ok (pyTake (sortByScoreDesc QueryResult.score all) top_k, fs3, m3)

open Classical in
/-- The spec's per-term summand (section 4.3):
`IDF[t] * freq(t,i) * (k1+1) / (freq(t,i) + k1*(1 - b + b*len(i)/avgdl))`. -/
noncomputable def specTermScore (X : SimpleBM25) (i : ℕ) (t : Token) : ℝ :=
  let freq : ℕ := (List.lookup t (X.doc_term_counts.getD i [])).getD 0
  ((List.lookup t X.idf).getD 0) * (freq : ℝ) * ((X.k1 : ℝ) + 1) /
    ((freq : ℝ) + (X.k1 : ℝ) *
      (1 - (X.b : ℝ) + (X.b : ℝ) * ((X.doc_lengths.getD i 0 : ℕ) : ℝ) / ((X.avgdl : ℚ) : ℝ)))

open Classical in
/-- The spec's document score: the sum, over the query terms present in the
IDF table (terms absent from the table are skipped), of the BM25 summand. -/
noncomputable def specScore (X : SimpleBM25) (query_terms : List Token) (i : ℕ) : ℝ :=
  ((query_terms.filter (fun t => (List.lookup t X.idf).isSome)).map (specTermScore X i)).sum

open Classical in
/-- The spec's description of `search` (section 4.3): score every document,
keep only the strictly positive total scores, sort the pairs by descending
score, and return the first `top_k` entries. -/
noncomputable def searchSpec (X : SimpleBM25) (query : List Char) (top_k : ℤ) :
    List (ℝ × Doc) :=
  let qts := tokenize query
  let cands := ((List.range X.doc_count).map
    (fun i => (specScore X qts i, X.documents.getD i defaultDoc))).filter (fun p => 0 < p.1)
  (sortByScoreDesc Prod.fst cands).take top_k.toNat

/-- Fixture: a short two-character document. -/
def docAB : Doc := ⟨['a', 'b'], "A/a.txt", "a.txt"⟩

/-- Fixture: a document whose bigram ab occurs twice in three tokens. -/
def docABAB : Doc := ⟨['a', 'b', 'a', 'b'], "A/aa.txt", "aa.txt"⟩

/-- Fixture: a document whose bigram ab occurs once in three tokens. -/
def docABCD : Doc := ⟨['a', 'b', 'c', 'd'], "B/b.txt", "b.txt"⟩

/-- Fixture: the empty manager cache. -/
def mgr0 : Mgr := ⟨[]⟩

/-- Fixture filesystem with a loadable sidecar for collection a and no
sidecar for collection b, which nonetheless holds one document. -/
noncomputable def fsC3 : FS :=
  { rootExists := true
    dirs := ["a", "b"]
    docsOf := fun n => if n = "a" then [docAB] else if n = "b" then [docABCD] else []
    sidecar := fun n => if n = "a" then SidecarFile.good (SimpleBM25.init.fit [docAB]).save
      else SidecarFile.absent }

/-- Fixture filesystem whose only collection has a corrupt sidecar file. -/
def fsC4 : FS :=
  { rootExists := true
    dirs := ["c"]
    docsOf := fun _ => []
    sidecar := fun n => if n = "c" then SidecarFile.corrupt else SidecarFile.absent }

/-- Fixture filesystem with one non-empty collection a, one empty collection
e, and no sidecar files. -/
def fsC7 : FS :=
  { rootExists := true
    dirs := ["a", "e"]
    docsOf := fun n => if n = "a" then [docAB] else []
    sidecar := fun _ => SidecarFile.absent }

lemma scoreStep_none (X : SimpleBM25) (i : ℕ) (s : ℝ) (t : Token)
    (h : List.lookup t X.idf = none) : scoreStep X i s t = s := by
  simp [scoreStep, h]

lemma scoreStep_some (X : SimpleBM25) (i : ℕ) (s : ℝ) (t : Token) (v : ℝ)
    (h : List.lookup t X.idf = some v) : scoreStep X i s t = s + specTermScore X i t := by
  simp [scoreStep, specTermScore, h]

lemma docScore_foldl_general (X : SimpleBM25) (i : ℕ) (query_terms : List Token) :
    ∀ a : ℝ, query_terms.foldl (scoreStep X i) a = a + specScore X query_terms i := by
  induction query_terms with
  | nil => intro a; simp [specScore]
  | cons t ts ih =>
    intro a
    simp only [List.foldl_cons]
    rcases h : List.lookup t X.idf with _ | v
    · rw [scoreStep_none X i a t h, ih a]
      simp [specScore, h]
    · rw [scoreStep_some X i a t v h, ih (a + specTermScore X i t)]
      have hfil : (List.filter (fun t => (List.lookup t X.idf).isSome) (t :: ts))
          = t :: List.filter (fun t => (List.lookup t X.idf).isSome) ts := by
        simp [List.filter_cons, h]
      simp only [specScore, hfil, List.map_cons, List.sum_cons]
      ring

/-- The inner loop of `search` computes exactly the spec's document score. -/
lemma docScore_eq_specScore (X : SimpleBM25) (query_terms : List Token) (i : ℕ) :
    X.docScore query_terms i = specScore X query_terms i := by
  have := docScore_foldl_general X i query_terms 0
  simpa [SimpleBM25.docScore] using this

lemma scoresList_foldl_general (X : SimpleBM25) (query_terms : List Token) :
    ∀ (l : List ℕ) (acc : List (ℝ × Doc)),
      l.foldl (fun scores i =>
        let score := X.docScore query_terms i
        if 0 < score then scores ++ [(score, X.documents.getD i defaultDoc)] else scores) acc
      = acc ++ (l.map (fun i => (X.docScore query_terms i,
          X.documents.getD i defaultDoc))).filter (fun p => 0 < p.1) := by
  intro l
  induction l with
  | nil => intro acc; simp
  | cons i l ih =>
    intro acc
    simp only [List.foldl_cons, List.map_cons, List.filter_cons]
    by_cases h : 0 < X.docScore query_terms i
    · rw [if_pos h, ih]
      simp [h]
    · rw [if_neg h, ih]
      simp [h]

/-- The candidate list of `search` is the filtered map that the spec
describes. -/
lemma scoresList_eq (X : SimpleBM25) (query_terms : List Token) :
    X.scoresList query_terms
      = ((List.range X.doc_count).map (fun i => (X.docScore query_terms i,
          X.documents.getD i defaultDoc))).filter (fun p => 0 < p.1) := by
  have := scoresList_foldl_general X query_terms (List.range X.doc_count) []
  simpa [SimpleBM25.scoresList] using this

lemma length_insertScored {α : Type} (sc : α → ℝ) (x : α) (l : List α) :
    (insertScored sc x l).length = l.length + 1 := by
  induction l with
  | nil => simp [insertScored]
  | cons y ys ih =>
    by_cases h : sc y ≤ sc x
    · simp [insertScored, h]
    · simp [insertScored, h, ih]

lemma length_sortByScoreDesc {α : Type} (sc : α → ℝ) (l : List α) :
    (sortByScoreDesc sc l).length = l.length := by
  induction l with
  | nil => simp [sortByScoreDesc]
  | cons y ys ih =>
    simp [sortByScoreDesc, length_insertScored] at *
    omega

lemma lookup_map_pair {β : Type} (g : Token → β) (l : List Token) (t : Token) (v : β) :
    List.lookup t (l.map (fun u => (u, g u))) = some v → v = g t := by
  induction l with
  | nil => intro h; simp [List.lookup] at h
  | cons u l ih =>
    intro h
    simp only [List.map_cons, List.lookup_cons] at h
    cases hb : t == u with
    | true =>
      rw [hb] at h
      simp only [] at h
      have ht : t = u := eq_of_beq hb
      subst ht
      exact (Option.some.inj h).symm
    | false =>
      rw [hb] at h
      simp only [] at h
      exact ih h

lemma lookup_map_pair_mem {β : Type} (g : Token → β) (l : List Token) (t : Token) :
    t ∈ l → List.lookup t (l.map (fun u => (u, g u))) = some (g t) := by
  induction l with
  | nil => intro h; simp at h
  | cons u l ih =>
    intro h
    simp only [List.map_cons, List.lookup_cons]
    cases hb : t == u with
    | true =>
      have ht : t = u := eq_of_beq hb
      subst ht
      simp
    | false =>
      rcases List.mem_cons.mp h with h1 | h2
      · subst h1
        simp at hb
      · exact ih h2

lemma fit_doc_count (x : SimpleBM25) (docs : List Doc) :
    (x.fit docs).doc_count = docs.length := rfl

lemma fit_k1 (x : SimpleBM25) (docs : List Doc) : (x.fit docs).k1 = x.k1 := rfl

lemma fit_b (x : SimpleBM25) (docs : List Doc) : (x.fit docs).b = x.b := rfl

lemma fit_documents (x : SimpleBM25) (docs : List Doc) :
    (x.fit docs).documents = docs := rfl

lemma fit_doc_lengths (x : SimpleBM25) (docs : List Doc) :
    (x.fit docs).doc_lengths = docs.map (fun d => (tokenize d.content).length) := rfl

lemma fit_doc_term_counts (x : SimpleBM25) (docs : List Doc) :
    (x.fit docs).doc_term_counts = docs.map (fun d => counterOf (tokenize d.content)) := rfl

lemma fit_avgdl (x : SimpleBM25) (docs : List Doc) :
    (x.fit docs).avgdl = if 0 < docs.length then
      (((docs.map (fun d => (tokenize d.content).length)).sum : ℚ) / (docs.length : ℚ))
    else 0 := rfl

lemma fit_idf (x : SimpleBM25) (docs : List Doc) :
    (x.fit docs).idf =
      (dedupFirst (((docs.map (fun d => counterOf (tokenize d.content))).map
          (fun tc => tc.map Prod.fst)).flatten)).map
        (fun t => (t, idfFormula docs.length
          (docFreq (docs.map (fun d => counterOf (tokenize d.content))) t))) := rfl

lemma docFreq_le_length (tcs : List (List (Token × ℕ))) (t : Token) :
    docFreq tcs t ≤ tcs.length :=
  List.countP_le_length _

lemma idfFormula_nonneg (N df : ℕ) (h : df ≤ N) : 0 ≤ idfFormula N df := by
  apply Real.log_nonneg
  have hnum : (0 : ℝ) ≤ (N : ℝ) - (df : ℝ) + 1 / 2 := by
    have : (df : ℝ) ≤ (N : ℝ) := by exact_mod_cast h
    linarith
  have hden : (0 : ℝ) < (df : ℝ) + 1 / 2 := by positivity
  have := div_nonneg hnum (le_of_lt hden)
  linarith

/-- Every value stored in the IDF table of a fitted index is the smoothed
log-IDF of that term's document frequency. -/
lemma fit_idf_lookup (x : SimpleBM25) (docs : List Doc) (t : Token) (v : ℝ) :
    List.lookup t (x.fit docs).idf = some v →
      v = idfFormula docs.length
        (docFreq (docs.map (fun d => counterOf (tokenize d.content))) t) := by
  rw [fit_idf]
  exact lookup_map_pair _ _ _ _

lemma tokenize_short (w : Char → Bool) (s : List Char)
    (h : (normalizeWith w s).length < 2) :
    tokenizeWith w s = [normalizeWith w s] := by
  simp [tokenizeWith, h]

lemma tokenize_long (w : Char → Bool) (s : List Char)
    (h : 2 ≤ (normalizeWith w s).length) :
    tokenizeWith w s = (List.range ((normalizeWith w s).length - 1)).map
      (fun i => ((normalizeWith w s).drop i).take 2) := by
  have h2 : ¬ (normalizeWith w s).length < 2 := by omega
  simp only [tokenizeWith, h2, if_false]

lemma drop_take_two {α : Type} (l : List α) (i : ℕ) (h : i + 1 < l.length) :
    (l.drop i).take 2 = [l.get ⟨i, by omega⟩, l.get ⟨i + 1, h⟩] := by
  have h1 : i < l.length := by omega
  rw [List.drop_eq_getElem_cons h1, List.drop_eq_getElem_cons h]
  simp only [List.take_succ_cons, List.take_zero, List.get_eq_getElem]

/-- The tokenizer never produces an empty token sequence, whatever the
keep-test. -/
lemma tokenize_ne_nil (w : Char → Bool) (s : List Char) : tokenizeWith w s ≠ [] := by
  by_cases h : (normalizeWith w s).length < 2
  · simp [tokenize_short w s h]
  · rw [tokenize_long w s (by omega)]
    have h1 : (normalizeWith w s).length - 1 ≠ 0 := by omega
    simp [List.range_eq_nil, h1]

lemma length_le_sum_nat (l : List ℕ) (h : ∀ x ∈ l, 1 ≤ x) : l.length ≤ l.sum := by
  induction l with
  | nil => simp
  | cons x xs ih =>
    simp only [List.length_cons, List.sum_cons]
    have hx := h x (by simp)
    have hxs := ih (fun y hy => h y (by simp [hy]))
    omega

/-- Claim C6: for every keep-test, and so in particular for the Unicode
word-or-CJK class the source regex strips by, the tokenizer is a pure
function of its input: it first strips every character the class rejects;
when the normalised remainder has fewer than 2 characters it returns that
remainder as a one-element sequence; and otherwise it returns exactly L-1
overlapping 2-character bigrams in left-to-right order (duplicates
retained), where L is the normalised length and the i-th bigram holds
characters i and i+1. -/
theorem C6_tokenizer_bigrams (w : Char → Bool) (s : List Char) :
    ((normalizeWith w s).length < 2 → tokenizeWith w s = [normalizeWith w s]) ∧
    (2 ≤ (normalizeWith w s).length →
      (tokenizeWith w s).length = (normalizeWith w s).length - 1 ∧
      ∀ i : ℕ, ∀ h : i + 1 < (normalizeWith w s).length,
        (tokenizeWith w s).getD i [] =
          [(normalizeWith w s).get ⟨i, by omega⟩,
           (normalizeWith w s).get ⟨i + 1, h⟩]) := by
  constructor
  · exact tokenize_short w s
  · intro h2
    constructor
    · rw [tokenize_long w s h2]
      simp
    · intro i h
      rw [tokenize_long w s h2]
      have hi : i < (normalizeWith w s).length - 1 := by omega
      rw [List.getD_eq_getElem?_getD, List.getElem?_map, List.getElem?_range hi]
      simp [drop_take_two (normalizeWith w s) i h]

/-- Witness for C6, instantiating the keep-test with the concrete fragment
(which agrees with the source class on these inputs) at the 4-character CJK
example from the spec and at a 1-character degenerate input. -/
theorem C6_tokenizer_bigrams_witness :
    ((normalizeWith keepChar ['a']).length < 2 ∧
      tokenizeWith keepChar ['a'] = [normalizeWith keepChar ['a']]) ∧
    (2 ≤ (normalizeWith keepChar ['云', '舒', '系', '统']).length ∧
      (tokenizeWith keepChar ['云', '舒', '系', '统']).length =
        (normalizeWith keepChar ['云', '舒', '系', '统']).length - 1) :=
  ⟨⟨by decide, (C6_tokenizer_bigrams keepChar ['a']).1 (by decide)⟩,
   ⟨by decide,
    ((C6_tokenizer_bigrams keepChar ['云', '舒', '系', '统']).2 (by decide)).1⟩⟩

/-- Claim C10: the tokenizer always returns at least one token, so after
fitting any non-empty document list every per-document length is at least 1,
the average document length is at least 1, and in particular the division by
avgdl in the search score denominator never divides by zero. -/
theorem C10_tokenizer_nonempty_avgdl (s : List Char) (docs : List Doc)
    (h : docs ≠ []) :
    tokenize s ≠ [] ∧
    (∀ l ∈ (fitDefault docs).doc_lengths, 1 ≤ l) ∧
    1 ≤ (fitDefault docs).avgdl ∧
    (fitDefault docs).avgdl ≠ 0 := by
  have hlen : ∀ l ∈ (fitDefault docs).doc_lengths, 1 ≤ l := by
    rw [fitDefault, fit_doc_lengths]
    intro l hl
    rcases List.mem_map.mp hl with ⟨d, _, rfl⟩
    have := tokenize_ne_nil keepChar d.content
    exact List.length_pos.mpr this
  have hpos : 0 < docs.length := List.length_pos.mpr h
  have havg : 1 ≤ (fitDefault docs).avgdl := by
    rw [fitDefault, fit_avgdl, if_pos hpos]
    rw [one_le_div (by exact_mod_cast hpos)]
    have hsum : docs.length ≤ (docs.map (fun d => (tokenize d.content).length)).sum := by
      have := length_le_sum_nat (docs.map (fun d => (tokenize d.content).length)) (by
        intro x hx
        rcases List.mem_map.mp hx with ⟨d, _, rfl⟩
        exact List.length_pos.mpr (tokenize_ne_nil keepChar d.content))
      simpa using this
    exact_mod_cast hsum
  refine ⟨tokenize_ne_nil keepChar s, hlen, havg, ?_⟩
  intro h0
  rw [h0] at havg
  norm_num at havg

/-- Witness for C10 at a one-document corpus. -/
theorem C10_tokenizer_nonempty_avgdl_witness :
    ([docAB] ≠ ([] : List Doc)) ∧
    (tokenize [] ≠ [] ∧
      (∀ l ∈ (fitDefault [docAB]).doc_lengths, 1 ≤ l) ∧
      1 ≤ (fitDefault [docAB]).avgdl ∧
      (fitDefault [docAB]).avgdl ≠ 0) :=
  ⟨by simp, C10_tokenizer_nonempty_avgdl [] [docAB] (by simp)⟩

/-- Claim C5: in a fitted index every stored IDF value is exactly
ln((N - df + 0.5) / (df + 0.5) + 1) for that term's document frequency df
and corpus size N; df never exceeds N, and the value is non-negative. -/
theorem C5_idf_formula (docs : List Doc) (t : Token)
    (h : t ∈ (fitDefault docs).idf.map Prod.fst) :
    List.lookup t (fitDefault docs).idf =
      some (idfFormula docs.length (docFreq ((fitDefault docs).doc_term_counts) t)) ∧
    idfFormula docs.length (docFreq ((fitDefault docs).doc_term_counts) t) =
      Real.log (((docs.length : ℝ) -
          ((docFreq ((fitDefault docs).doc_term_counts) t : ℕ) : ℝ) + 1 / 2) /
        (((docFreq ((fitDefault docs).doc_term_counts) t : ℕ) : ℝ) + 1 / 2) + 1) ∧
    docFreq ((fitDefault docs).doc_term_counts) t ≤ docs.length ∧
    0 ≤ idfFormula docs.length (docFreq ((fitDefault docs).doc_term_counts) t) := by
  have hdf : docFreq ((fitDefault docs).doc_term_counts) t ≤ docs.length := by
    have := docFreq_le_length ((fitDefault docs).doc_term_counts) t
    simpa [fitDefault, fit_doc_term_counts] using this
  refine ⟨?_, rfl, hdf, idfFormula_nonneg _ _ hdf⟩
  have hmem : t ∈ dedupFirst ((((fitDefault docs).doc_term_counts).map
      (fun tc => tc.map Prod.fst)).flatten) := by
    rw [fitDefault, fit_idf] at h
    simpa [fitDefault, fit_doc_term_counts] using h
  rw [fitDefault, fit_idf]
  have := lookup_map_pair_mem
    (fun u => idfFormula docs.length
      (docFreq (docs.map (fun d => counterOf (tokenize d.content))) u))
    (dedupFirst (((docs.map (fun d => counterOf (tokenize d.content))).map
      (fun tc => tc.map Prod.fst)).flatten)) t
    (by simpa [fitDefault, fit_doc_term_counts] using hmem)
  simpa [fitDefault, fit_doc_term_counts] using this

/-- Witness for C5 at a one-document corpus containing the single term ab. -/
theorem C5_idf_formula_witness :
    (['a', 'b'] ∈ (fitDefault [docAB]).idf.map Prod.fst) ∧
    (List.lookup ['a', 'b'] (fitDefault [docAB]).idf =
      some (idfFormula 1 (docFreq ((fitDefault [docAB]).doc_term_counts) ['a', 'b'])) ∧
     0 ≤ idfFormula 1 (docFreq ((fitDefault [docAB]).doc_term_counts) ['a', 'b'])) :=
  ⟨by decide,
   ⟨(C5_idf_formula [docAB] ['a', 'b'] (by decide)).1,
    (C5_idf_formula [docAB] ['a', 'b'] (by decide)).2.2.2⟩⟩

/-- Claim C2: saving a built index and loading the result into a fresh index
reproduces the original index exactly, so every subsequent search returns the
same documents in the same order with identical scores (in particular within
the 1e-9 tolerance the spec allows). -/
theorem C2_save_load_roundtrip (X : SimpleBM25) (Q : List Char) (k : ℤ) :
    SimpleBM25.init.loadInto X.save = X ∧
    (SimpleBM25.init.loadInto X.save).search Q k = X.search Q k :=
  ⟨rfl, rfl⟩

/-- For a non-negative top_k, `search` equals the spec's scoring pipeline. -/
lemma search_eq_searchSpec (X : SimpleBM25) (Q : List Char) (k : ℤ) (hk : 0 ≤ k) :
    X.search Q k = searchSpec X Q k := by
  rw [SimpleBM25.search, pyTake, if_pos hk, scoresList_eq]
  simp only [searchSpec, docScore_eq_specScore]

/-- Searching an empty-corpus index returns the empty list. -/
lemma search_empty_corpus (X : SimpleBM25) (Q : List Char) (k : ℤ)
    (h : X.doc_count = 0) : X.search Q k = [] := by
  rw [SimpleBM25.search, SimpleBM25.scoresList, h]
  simp [sortByScoreDesc, pyTake]

/-- When no query term is present in the IDF table, `search` returns the
empty list. -/
lemma search_no_match (X : SimpleBM25) (Q : List Char) (k : ℤ)
    (h : ∀ t ∈ tokenize Q, List.lookup t X.idf = none) :
    X.search Q k = [] := by
  have hs : ∀ i, X.docScore (tokenize Q) i = 0 := by
    intro i
    rw [docScore_eq_specScore]
    have hfil : (tokenize Q).filter (fun t => (List.lookup t X.idf).isSome) = [] := by
      rw [List.filter_eq_nil_iff]
      intro t ht
      simp [h t ht]
    simp [specScore, hfil]
  rw [SimpleBM25.search, scoresList_eq]
  have hnil : ((List.range X.doc_count).map (fun i => (X.docScore (tokenize Q) i,
      X.documents.getD i defaultDoc))).filter (fun p => 0 < p.1) = [] := by
    rw [List.filter_eq_nil_iff]
    intro p hp
    rcases List.mem_map.mp hp with ⟨i, _, rfl⟩
    simp [hs i]
  rw [hnil]
  simp [sortByScoreDesc, pyTake]

/-- Claim C1: on an index fitted from a non-empty document list and a
non-negative top_k, `search` tokenizes the query with the shared tokenizer
and realises exactly the spec's pipeline (BM25 score per document over the
query terms present in the IDF table, keep strictly positive totals, sort by
descending score, return the first top_k); on an empty corpus, or when no
query term matches the IDF table, it returns the empty sequence. -/
theorem C1_search_scoring_pipeline (docs : List Doc) (Q : List Char) (k : ℤ)
    (hk : 0 ≤ k) (_hdocs : docs ≠ []) :
    (fitDefault docs).search Q k = searchSpec (fitDefault docs) Q k ∧
    (∀ Q' : List Char, ∀ k' : ℤ, (fitDefault []).search Q' k' = []) ∧
    ((∀ t ∈ tokenize Q, List.lookup t (fitDefault docs).idf = none) →
      (fitDefault docs).search Q k = []) := by
  refine ⟨search_eq_searchSpec _ Q k hk, ?_, ?_⟩
  · intro Q' k'
    exact search_empty_corpus _ Q' k' rfl
  · intro h
    exact search_no_match _ Q k h

/-- Witness for C1 at a one-document corpus and top_k = 3. -/
theorem C1_search_scoring_pipeline_witness :
    ((0 : ℤ) ≤ 3 ∧ [docAB] ≠ ([] : List Doc)) ∧
    (fitDefault [docAB]).search ['a', 'b'] 3 = searchSpec (fitDefault [docAB]) ['a', 'b'] 3 :=
  ⟨⟨by decide, by simp⟩,
   (C1_search_scoring_pipeline [docAB] ['a', 'b'] 3 (by decide) (by simp)).1⟩

/-- Claim C8, amended: `search` returns at most k results for k ≥ 0 and all
positive-scoring candidates (in sorted order) when they number at most k;
k = 0 returns the empty sequence; but a negative k follows Python slice
semantics, returning the sorted candidates with the last -k of them
dropped (empty only when the candidate count is at most -k). -/
theorem C8_top_k_truncation (X : SimpleBM25) (Q : List Char) (k : ℤ) :
    (0 ≤ k → (X.search Q k).length ≤ k.toNat) ∧
    (0 ≤ k → (X.scoresList (tokenize Q)).length ≤ k.toNat →
      X.search Q k = sortByScoreDesc Prod.fst (X.scoresList (tokenize Q))) ∧
    (k = 0 → X.search Q k = []) ∧
    (k < 0 → X.search Q k = (sortByScoreDesc Prod.fst (X.scoresList (tokenize Q))).take
      ((X.scoresList (tokenize Q)).length - (-k).toNat)) := by
  refine ⟨?_, ?_, ?_, ?_⟩
  · intro hk
    rw [SimpleBM25.search, pyTake, if_pos hk]
    rw [List.length_take]
    exact min_le_left _ _
  · intro hk hlen
    rw [SimpleBM25.search, pyTake, if_pos hk]
    apply List.take_of_length_le
    rw [length_sortByScoreDesc]
    exact hlen
  · intro hk
    subst hk
    rw [SimpleBM25.search, pyTake, if_pos (le_refl 0)]
    simp
  · intro hk
    rw [SimpleBM25.search, pyTake, if_neg (not_le.mpr hk), length_sortByScoreDesc]

/-- Witness for C8 on the empty corpus, covering the k = 0, negative-k and
k ≥ 0 branches of the theorem. -/
theorem C8_top_k_truncation_witness :
    ((fitDefault []).search [] 0 = []) ∧
    ((fitDefault []).search [] (-1) =
      (sortByScoreDesc Prod.fst ((fitDefault []).scoresList (tokenize []))).take
        (((fitDefault []).scoresList (tokenize [])).length - 1)) ∧
    ((fitDefault []).search [] 2).length ≤ 2 :=
  ⟨(C8_top_k_truncation (fitDefault []) [] 0).2.2.1 rfl,
   (C8_top_k_truncation (fitDefault []) [] (-1)).2.2.2 (by decide),
   (C8_top_k_truncation (fitDefault []) [] 2).1 (by decide)⟩


lemma c8_idf_pos : 0 < idfFormula 2 2 := by
  rw [idfFormula]
  apply Real.log_pos
  norm_num

lemma c8_lookup : List.lookup ['a', 'b'] (fitDefault [docAB, docAB]).idf
    = some (idfFormula 2 2) := rfl

lemma c8_avgdl : (fitDefault [docAB, docAB]).avgdl = 1 := by
  have hsum : (List.map (fun d => (tokenize d.content).length) [docAB, docAB]).sum = 2 := by
    decide
  have hlen : ([docAB, docAB] : List Doc).length = 2 := rfl
  rw [fitDefault, fit_avgdl, if_pos (by norm_num), hsum, hlen]
  norm_num

lemma c8_docScore (i : ℕ) (h : i < 2) :
    (fitDefault [docAB, docAB]).docScore [['a', 'b']] i = idfFormula 2 2 := by
  rw [SimpleBM25.docScore]
  simp only [List.foldl_cons, List.foldl_nil]
  rw [scoreStep_some _ _ _ _ _ c8_lookup]
  have hfreq : ((List.lookup ['a', 'b']
      ((fitDefault [docAB, docAB]).doc_term_counts.getD i [])).getD 0) = 1 := by
    interval_cases i <;> decide
  have hdl : (fitDefault [docAB, docAB]).doc_lengths.getD i 0 = 1 := by
    interval_cases i <;> decide
  have hk1 : (fitDefault [docAB, docAB]).k1 = 3 / 2 := rfl
  have hb : (fitDefault [docAB, docAB]).b = 3 / 4 := rfl
  simp only [specTermScore, c8_lookup, hfreq, hdl, c8_avgdl, hk1, hb, Option.getD_some]
  push_cast
  ring_nf

lemma c8_scoresList : (fitDefault [docAB, docAB]).scoresList (tokenize ['a', 'b'])
    = [(idfFormula 2 2, docAB), (idfFormula 2 2, docAB)] := by
  rw [scoresList_eq]
  have hr : List.range (fitDefault [docAB, docAB]).doc_count = [0, 1] := rfl
  have ht : tokenize ['a', 'b'] = [['a', 'b']] := rfl
  rw [hr, ht]
  simp only [List.map_cons, List.map_nil, c8_docScore 0 (by norm_num),
    c8_docScore 1 (by norm_num)]
  have hd0 : (fitDefault [docAB, docAB]).documents.getD 0 defaultDoc = docAB := rfl
  have hd1 : (fitDefault [docAB, docAB]).documents.getD 1 defaultDoc = docAB := rfl
  rw [hd0, hd1]
  simp [List.filter, c8_idf_pos]

lemma c8_sorted : sortByScoreDesc Prod.fst
    [(idfFormula 2 2, docAB), (idfFormula 2 2, docAB)]
    = [(idfFormula 2 2, docAB), (idfFormula 2 2, docAB)] := by
  simp [sortByScoreDesc, insertScored]

/-- Counterexample to C8 as stated: on a two-document corpus where both
documents score positively, `search` with top_k = -1 returns one result
(Python's `scores[:-1]`), not the empty sequence the claim requires for
top_k ≤ 0. -/
theorem C8_top_k_truncation_cex :
    (fitDefault [docAB, docAB]).search ['a', 'b'] (-1) ≠ [] := by
  rw [SimpleBM25.search, c8_scoresList, c8_sorted, pyTake]
  rw [if_neg (by norm_num)]
  simp


lemma fit_avgdl_nonneg (x : SimpleBM25) (docs : List Doc) : 0 ≤ (x.fit docs).avgdl := by
  rw [fit_avgdl]
  split
  · positivity
  · exact le_refl 0

lemma fitDefault_k1_real (docs : List Doc) : ((fitDefault docs).k1 : ℝ) = 3 / 2 := by
  rw [fitDefault, fit_k1]
  norm_num [SimpleBM25.init]

lemma fitDefault_b_real (docs : List Doc) : ((fitDefault docs).b : ℝ) = 3 / 4 := by
  rw [fitDefault, fit_b]
  norm_num [SimpleBM25.init]

lemma fitDefault_denom_pos (docs : List Doc) (i : ℕ) :
    0 < ((fitDefault docs).k1 : ℝ) *
      (1 - ((fitDefault docs).b : ℝ) + ((fitDefault docs).b : ℝ) *
        (((fitDefault docs).doc_lengths.getD i 0 : ℕ) : ℝ) /
          ((fitDefault docs).avgdl : ℝ)) := by
  rw [fitDefault_k1_real, fitDefault_b_real]
  have hdl : (0:ℝ) ≤ (((fitDefault docs).doc_lengths.getD i 0 : ℕ) : ℝ) := by positivity
  have havg : (0:ℝ) ≤ ((fitDefault docs).avgdl : ℝ) := by
    have h := fit_avgdl_nonneg SimpleBM25.init docs
    rw [show fitDefault docs = SimpleBM25.init.fit docs from rfl]
    exact_mod_cast h
  have hdiv : (0:ℝ) ≤ 3 / 4 * (((fitDefault docs).doc_lengths.getD i 0 : ℕ) : ℝ) /
      ((fitDefault docs).avgdl : ℝ) := div_nonneg (by positivity) havg
  linarith

lemma fitDefault_idf_getD_nonneg (docs : List Doc) (u : Token) :
    0 ≤ (List.lookup u (fitDefault docs).idf).getD 0 := by
  rcases h : List.lookup u (fitDefault docs).idf with _ | v
  · simp
  · simp only [Option.getD_some]
    rw [show fitDefault docs = SimpleBM25.init.fit docs from rfl] at h
    rw [fit_idf_lookup SimpleBM25.init docs u v h]
    apply idfFormula_nonneg
    have := docFreq_le_length (docs.map (fun d => counterOf (tokenize d.content))) u
    simpa using this

lemma bm25_term_mono (v : ℝ) (hv : 0 ≤ v) (K : ℝ) (hK : 0 ≤ K) (c : ℝ) (hc : 0 < c)
    (f1 f2 : ℕ) (hf : f2 ≤ f1) :
    v * (f2 : ℝ) * K / ((f2 : ℝ) + c) ≤ v * (f1 : ℝ) * K / ((f1 : ℝ) + c) := by
  have h2 : (0:ℝ) < (f2:ℝ) + c := by positivity
  have h1 : (0:ℝ) < (f1:ℝ) + c := by positivity
  rw [div_le_div_iff₀ h2 h1]
  have hf2 : (f2:ℝ) ≤ (f1:ℝ) := by exact_mod_cast hf
  nlinarith [mul_le_mul_of_nonneg_left hf2 (mul_nonneg (mul_nonneg hv hK) hc.le)]

/-- Claim C9: BM25 scoring is monotone in term frequency: within one fitted
index, for documents A and B of equal token length where A contains the query
term t strictly more often and matches B on every other query term, A's total
document score is at least B's. -/
theorem C9_score_monotonicity (docs : List Doc) (Q : List Char) (iA iB : ℕ) (t : Token)
    (hlen : (fitDefault docs).doc_lengths.getD iA 0 = (fitDefault docs).doc_lengths.getD iB 0)
    (ht : t ∈ tokenize Q)
    (hfreq : (List.lookup t ((fitDefault docs).doc_term_counts.getD iB [])).getD 0
      < (List.lookup t ((fitDefault docs).doc_term_counts.getD iA [])).getD 0)
    (hother : ∀ u ∈ tokenize Q, u ≠ t →
      (List.lookup u ((fitDefault docs).doc_term_counts.getD iA [])).getD 0
        = (List.lookup u ((fitDefault docs).doc_term_counts.getD iB [])).getD 0) :
    (fitDefault docs).docScore (tokenize Q) iB ≤ (fitDefault docs).docScore (tokenize Q) iA := by
  rw [docScore_eq_specScore, docScore_eq_specScore, specScore, specScore]
  apply List.sum_le_sum
  intro u hu
  have humem : u ∈ tokenize Q := List.mem_of_mem_filter hu
  simp only [specTermScore]
  by_cases hut : u = t
  · subst hut
    rw [hlen]
    exact bm25_term_mono _ (fitDefault_idf_getD_nonneg docs u) _
      (by rw [fitDefault_k1_real]; norm_num) _ (fitDefault_denom_pos docs iB)
      _ _ (le_of_lt hfreq)
  · rw [hother u humem hut, hlen]


/-- Witness for C9: two three-token documents, with the bigram ab occurring
twice in the first and once in the second. -/
theorem C9_score_monotonicity_witness :
    ((fitDefault [docABAB, docABCD]).doc_lengths.getD 0 0
        = (fitDefault [docABAB, docABCD]).doc_lengths.getD 1 0 ∧
      ['a', 'b'] ∈ tokenize ['a', 'b'] ∧
      (List.lookup ['a', 'b']
        ((fitDefault [docABAB, docABCD]).doc_term_counts.getD 1 [])).getD 0
        < (List.lookup ['a', 'b']
        ((fitDefault [docABAB, docABCD]).doc_term_counts.getD 0 [])).getD 0) ∧
    (fitDefault [docABAB, docABCD]).docScore (tokenize ['a', 'b']) 1
      ≤ (fitDefault [docABAB, docABCD]).docScore (tokenize ['a', 'b']) 0 :=
  ⟨⟨by decide, by decide, by decide⟩,
   C9_score_monotonicity [docABAB, docABCD] ['a', 'b'] 0 1 ['a', 'b']
     (by decide) (by decide) (by decide) (by decide)⟩


lemma lookup_map_replace (l : List (String × SimpleBM25)) (name : String) (v : SimpleBM25)
    (h : l.any (fun p => p.1 == name) = true) :
    List.lookup name (l.map (fun p => if p.1 == name then (name, v) else p)) = some v := by
  induction l with
  | nil => simp at h
  | cons p ps ih =>
    simp only [List.map_cons]
    by_cases hp : (p.1 == name) = true
    · rw [if_pos hp]
      exact List.lookup_cons_self
    · rw [if_neg hp]
      have hne : (name == p.1) = false := by
        apply beq_eq_false_iff_ne.mpr
        intro he
        exact hp (by simp [he.symm])
      have h' : ps.any (fun p => p.1 == name) = true := by
        simp only [List.any_cons, hp, Bool.false_or] at h
        exact h
      rw [List.lookup_cons, hne]
      exact ih h'

lemma lookup_append_self (l : List (String × SimpleBM25)) (name : String) (v : SimpleBM25)
    (h : l.any (fun p => p.1 == name) = false) :
    List.lookup name (l ++ [(name, v)]) = some v := by
  induction l with
  | nil => simp [List.lookup]
  | cons p ps ih =>
    simp only [List.any_cons, Bool.or_eq_false_iff] at h
    have hne : (name == p.1) = false := by
      apply beq_eq_false_iff_ne.mpr
      intro he
      rw [he.symm] at h
      simp at h
    rw [List.cons_append, List.lookup_cons, hne]
    exact ih h.2

/-- Writing `engines[name] = v` makes `name` resolve to `v` in the cache. -/
lemma lookup_insertAssoc_self (l : List (String × SimpleBM25)) (name : String)
    (v : SimpleBM25) : List.lookup name (insertAssoc l name v) = some v := by
  rw [insertAssoc]
  by_cases h : l.any (fun p => p.1 == name) = true
  · rw [if_pos h]
    exact lookup_map_replace l name v h
  · rw [if_neg h]
    exact lookup_append_self l name v (by revert h; cases l.any (fun p => p.1 == name) <;> simp)


/-- Claim C7: `build` fails with the "not found" reason when the collection
directory does not exist and with the "no documents" reason when it exists
but holds no text files, in both cases leaving the filesystem and the cache
untouched; on success it fits a fresh index, persists the sidecar, installs
the engine in the cache, and the name then resolves to the new engine. -/
theorem C7_build_failure_modes (fs : FS) (m : Mgr) (name : String) :
    (fs.dirExists name = false →
      build_novel_index fs m name = ((false, "Novel directory not found"), fs, m)) ∧
    (fs.dirExists name = true → fs.docsOf name = [] →
      build_novel_index fs m name = ((false, "No documents found"), fs, m)) ∧
    (fs.dirExists name = true → fs.docsOf name ≠ [] →
      build_novel_index fs m name =
        ((true, "Indexed " ++ toString (fs.docsOf name).length ++ " chapters."),
         fs.writeSidecar name (SimpleBM25.init.fit (fs.docsOf name)).save,
         ⟨insertAssoc m.engines name (SimpleBM25.init.fit (fs.docsOf name))⟩) ∧
      List.lookup name (insertAssoc m.engines name (SimpleBM25.init.fit (fs.docsOf name)))
        = some (SimpleBM25.init.fit (fs.docsOf name))) := by
  refine ⟨?_, ?_, ?_⟩
  · intro h
    simp [build_novel_index, h]
  · intro h hd
    simp [build_novel_index, h, hd]
  · intro h hd
    have hd' : (fs.docsOf name).isEmpty = false := by
      exact List.isEmpty_eq_false.mpr hd
    refine ⟨?_, lookup_insertAssoc_self _ _ _⟩
    simp [build_novel_index, h, hd']

/-- Witness for C7 on a fixture filesystem: a missing collection x, an empty
collection e, and a successful build of collection a. -/
theorem C7_build_failure_modes_witness :
    (fsC7.dirExists "x" = false ∧
      build_novel_index fsC7 mgr0 "x" = ((false, "Novel directory not found"), fsC7, mgr0)) ∧
    (fsC7.dirExists "e" = true ∧ fsC7.docsOf "e" = [] ∧
      build_novel_index fsC7 mgr0 "e" = ((false, "No documents found"), fsC7, mgr0)) ∧
    (fsC7.dirExists "a" = true ∧ fsC7.docsOf "a" ≠ [] ∧
      List.lookup "a" (insertAssoc mgr0.engines "a" (SimpleBM25.init.fit (fsC7.docsOf "a")))
        = some (SimpleBM25.init.fit (fsC7.docsOf "a"))) :=
  ⟨⟨by decide, (C7_build_failure_modes fsC7 mgr0 "x").1 (by decide)⟩,
   ⟨by decide, by decide, (C7_build_failure_modes fsC7 mgr0 "e").2.1 (by decide) (by decide)⟩,
   ⟨by decide, by decide,
    ((C7_build_failure_modes fsC7 mgr0 "a").2.2 (by decide) (by decide)).2⟩⟩


/-- Claim C4, amended: `query` serves cached collections and loadable
sidecars without error, falls back to build-on-demand when no sidecar
exists and returns the empty result set when that build fails; but when the
collection is not cached and its sidecar file exists yet cannot be parsed,
the parse error propagates to the caller instead of falling through to a
build. -/
theorem C4_query_error_handling (fs : FS) (m : Mgr) (name : String)
    (qt : List Char) (k : ℤ) :
    ((List.lookup name m.engines).isNone = true →
      fs.sidecar name = SidecarFile.corrupt →
      mmQuery fs m name qt k = Except.error ()) ∧
    ((List.lookup name m.engines).isSome = true ∨ fs.sidecar name ≠ SidecarFile.corrupt →
      ∃ v, mmQuery fs m name qt k = Except.ok v) ∧
    ((List.lookup name m.engines).isNone = true →
      fs.sidecar name = SidecarFile.absent →
      (fs.dirExists name = false ∨ fs.docsOf name = []) →
      mmQuery fs m name qt k = Except.ok ([], fs, m)) := by
  rcases hl : List.lookup name m.engines with _ | engine
  · rcases hs : fs.sidecar name with _ | _ | d
    · -- absent: build on demand
      have hq : mmQuery fs m name qt k =
          (let r := build_novel_index fs m name
           if r.1.1 then
             match List.lookup name r.2.2.engines with
             | some engine =>
               Except.ok (formatResults name (engine.search qt k), r.2.1, r.2.2)
             | none => Except.error ()
           else Except.ok ([], fs, m)) := by
        simp [mmQuery, hl, hs]
      refine ⟨?_, ?_, ?_⟩
      · intro _ hc
        exact SidecarFile.noConfusion hc
      · intro _
        by_cases hd : fs.dirExists name = true
        · by_cases he : (fs.docsOf name).isEmpty = true
          · refine ⟨([], fs, m), ?_⟩
            rw [hq]
            simp [build_novel_index, hd, he]
          · refine ⟨(formatResults name ((SimpleBM25.init.fit (fs.docsOf name)).search qt k),
              fs.writeSidecar name (SimpleBM25.init.fit (fs.docsOf name)).save,
              ⟨insertAssoc m.engines name (SimpleBM25.init.fit (fs.docsOf name))⟩), ?_⟩
            rw [hq]
            simp only [build_novel_index, hd, if_true, he, Bool.false_eq_true, if_false,
              if_pos, lookup_insertAssoc_self]
        · have hd' : fs.dirExists name = false := by
            revert hd; cases fs.dirExists name <;> simp
          refine ⟨([], fs, m), ?_⟩
          rw [hq]
          simp [build_novel_index, hd']
      · intro _ _ hfail
        rw [hq]
        rcases hfail with hd | he
        · simp [build_novel_index, hd]
        · have he' : (fs.docsOf name).isEmpty = true := by simp [he]
          by_cases hd : fs.dirExists name = true
          · simp [build_novel_index, hd, he']
          · have hd' : fs.dirExists name = false := by
              revert hd; cases fs.dirExists name <;> simp
            simp [build_novel_index, hd']
    · -- corrupt: the parse error propagates
      refine ⟨?_, ?_, ?_⟩
      · intro _ _
        simp [mmQuery, hl, hs]
      · intro h
        rcases h with h | h
        · simp at h
        · exact absurd rfl h
      · intro _ ha
        exact absurd ha (fun ha => SidecarFile.noConfusion ha)
    · -- good sidecar: load, cache and search
      refine ⟨?_, ?_, ?_⟩
      · intro _ hc
        exact SidecarFile.noConfusion hc
      · intro _
        refine ⟨(formatResults name ((SimpleBM25.init.loadInto d).search qt k), fs,
          ⟨insertAssoc m.engines name (SimpleBM25.init.loadInto d)⟩), ?_⟩
        simp [mmQuery, hl, hs]
      · intro _ ha
        exact absurd ha (fun ha => SidecarFile.noConfusion ha)
  · -- cached: served from the cache with unchanged state
    refine ⟨?_, ?_, ?_⟩
    · intro hn
      simp at hn
    · intro _
      refine ⟨(formatResults name (engine.search qt k), fs, m), ?_⟩
      simp [mmQuery, hl]
    · intro hn
      simp at hn

/-- Counterexample to C4 as stated: with the only collection uncached and its
sidecar file corrupt, `query` raises (the JSON parse error propagates) rather
than returning an empty result set or falling through to a build. -/
theorem C4_query_error_handling_cex :
    mmQuery fsC4 mgr0 "c" ['a'] 3 = Except.error () := rfl

/-- Witness for C4 on the fall-through branch: no cache entry, no sidecar,
and a failing build yield the empty result set with unchanged state. -/
theorem C4_query_error_handling_witness :
    (List.lookup "x" mgr0.engines).isNone = true ∧
    fsC7.sidecar "x" = SidecarFile.absent ∧
    (fsC7.dirExists "x" = false ∨ fsC7.docsOf "x" = []) ∧
    mmQuery fsC7 mgr0 "x" ['a'] 3 = Except.ok ([], fsC7, mgr0) :=
  ⟨by decide, rfl, Or.inl (by decide),
   (C4_query_error_handling fsC7 mgr0 "x" ['a'] 3).2.2 (by decide) rfl
     (Or.inl (by decide))⟩


lemma mmQuery_cached (fs : FS) (m : Mgr) (name : String) (qt : List Char) (k : ℤ)
    (e : SimpleBM25) (h : List.lookup name m.engines = some e) :
    mmQuery fs m name qt k = Except.ok (formatResults name (e.search qt k), fs, m) := by
  simp [mmQuery, h]

lemma lookup_of_mem_nodup (l : List (String × SimpleBM25)) (name : String)
    (e : SimpleBM25) (hnd : (l.map Prod.fst).Nodup) (hmem : (name, e) ∈ l) :
    List.lookup name l = some e := by
  induction l with
  | nil => simp at hmem
  | cons p ps ih =>
    simp only [List.map_cons, List.nodup_cons] at hnd
    rcases List.mem_cons.mp hmem with rfl | hmem'
    · exact List.lookup_cons_self
    · have hne : name ≠ p.1 := by
        intro he
        exact hnd.1 (he ▸ List.mem_map_of_mem Prod.fst hmem')
      rw [List.lookup_cons, beq_eq_false_iff_ne.mpr hne]
      exact ih hnd.2 hmem'

lemma queryLoop_all_cached (qt : List Char) (k : ℤ) (fs : FS) (m : Mgr) :
    ∀ (es : List (String × SimpleBM25)) (acc : List QueryResult),
      (∀ p ∈ es, List.lookup p.1 m.engines = some p.2) →
      queryLoop qt k (es.map Prod.fst) acc fs m =
        Except.ok (acc ++ (es.map
          (fun p => formatResults p.1 (p.2.search qt k))).flatten, fs, m) := by
  intro es
  induction es with
  | nil => intro acc _; simp [queryLoop]
  | cons p ps ih =>
    intro acc h
    simp only [List.map_cons]
    rw [queryLoop, mmQuery_cached fs m p.1 qt k p.2 (h p (by simp))]
    show queryLoop qt k (List.map Prod.fst ps)
        (acc ++ formatResults p.1 (p.2.search qt k)) fs m
      = Except.ok (acc ++ (formatResults p.1 (p.2.search qt k) ::
          List.map (fun p => formatResults p.1 (p.2.search qt k)) ps).flatten, fs, m)
    rw [ih (acc ++ formatResults p.1 (p.2.search qt k)) (fun q hq => h q (by simp [hq]))]
    simp [List.flatten_cons, List.append_assoc]

/-- Claim C3, amended: `search_all` re-runs discovery, and only when the
cache is empty after discovery (and the root exists) does it build every
subdirectory; it then queries every cached collection with the shared topK,
concatenates the per-collection results in cache order, sorts them by
descending score, and truncates to topK globally. -/
theorem C3_search_all_aggregation (fs : FS) (m : Mgr) (qt : List Char) (k : ℤ)
    (hnd : (((afterDiscovery fs m).2.engines).map Prod.fst).Nodup) :
    search_all fs m qt k = Except.ok
      (pyTake (sortByScoreDesc QueryResult.score
        (((afterDiscovery fs m).2.engines.map
          (fun p => formatResults p.1 (p.2.search qt k))).flatten)) k,
       (afterDiscovery fs m).1, (afterDiscovery fs m).2) ∧
    ((preload fs m).engines.isEmpty = false → afterDiscovery fs m = (fs, preload fs m)) := by
  constructor
  · have hq := queryLoop_all_cached qt k (afterDiscovery fs m).1 (afterDiscovery fs m).2
      (afterDiscovery fs m).2.engines []
      (fun p hp => lookup_of_mem_nodup _ _ _ hnd hp)
    simp only [search_all]
    rw [hq]
    simp
  · intro h
    rw [afterDiscovery]
    simp [h]


/-- Counterexample to C3 as stated: collection a has a loadable sidecar and
collection b has documents but no sidecar and no cached index; after
`search_all` the cache still has no entry for b and b's sidecar is still
absent, so no build of the uncached subdirectory b was triggered. -/
theorem C3_search_all_aggregation_cex :
    Except.map (fun r => ((r.2.2.engines.map Prod.fst).contains "b",
      (match r.2.1.sidecar "b" with
       | SidecarFile.absent => true
       | _ => false)))
      (search_all fsC3 mgr0 ['a', 'b'] 3) = Except.ok (false, true) := rfl

/-- Witness for C3 on the fixture where discovery loads one collection. -/
theorem C3_search_all_aggregation_witness :
    ((((afterDiscovery fsC3 mgr0).2.engines).map Prod.fst).Nodup) ∧
    ((preload fsC3 mgr0).engines.isEmpty = false →
      afterDiscovery fsC3 mgr0 = (fsC3, preload fsC3 mgr0)) :=
  ⟨by decide, (C3_search_all_aggregation fsC3 mgr0 ['a'] 3 (by decide)).2⟩
